import Mathlib

/-!
Shallow embedding of `rplugin/python3/wilder/__init__.py` (the wilder.nvim
python scheduler) and proofs about its claims.

Modelling conventions:
* Python `threading.Event` objects are modelled by numeric ids; a global
  list `setIds` records the ids whose flag has been set.  `e.is_set()` for a
  handler is modelled by a schedule `sched : Nat → Bool` giving the value
  observed at the n-th poll point of the handler body (poll points are
  numbered in the order the source polls them).
* The `multiprocessing.Queue` is modelled by the list of entries a handler
  emits (`HandlerOut.emits`) and, for the consumer, by the list of entries
  available in a drain cycle.
* External collaborators (the regex module, the fuzzywuzzy module, the
  filesystem, the user database) are modelled as explicit inputs; regex
  semantics is given by a small engine covering the star-free fragment the
  claims use.
-/

namespace Wilder

/-- `ctx` dictionaries carry `run_id` and `step` (source: consumer, lines 60-70). -/
structure Ctx where
  run_id : Int
  step : Int
  deriving Repr, DecidableEq

/-- Payload of a queue tuple: a candidate list on success, an error string on
failure (source: `self.queue.put((ctx, candidates,))` vs
`self.queue.put((ctx, 'python_...: ' + str(e), 'reject',))`). -/
inductive Payload where
  | ok (candidates : List String)
  | err (msg : String)
  deriving Repr, DecidableEq

/-- Third tuple component: absent means the default command `resolve`
(source: `handle(self, ctx, x, command='resolve')`, consumer lines 72-76). -/
inductive Kind where
  | resolve
  | reject
  deriving Repr, DecidableEq

/-- One tuple placed on `self.queue`. -/
structure QueueEntry where
  ctx : Ctx
  payload : Payload
  kind : Kind
  deriving Repr, DecidableEq

/-- Scheduler state of the `Wilder` object relevant to admission:
`run_id` is `self.run_id` (initialised to `-1`), `events` the ids of the
`threading.Event` objects currently in `self.events`, `setIds` the ids whose
flag has been set, `nextId` the supply of fresh event ids, and `submitted`
the event ids of closures handed to `self.executor.submit`. -/
structure SchedState where
  run_id : Int
  events : List Nat
  setIds : List Nat
  nextId : Nat
  submitted : List Nat
  deriving Repr, DecidableEq

/-- State of a fresh `Wilder` object (`__init__`): `self.run_id = -1`,
`self.events = []`. -/
def initialSched : SchedState :=
  { run_id := -1, events := [], setIds := [], nextId := 0, submitted := [] }

/-- `Wilder.run_in_background` (source lines 39-54): under `self.lock`,
drop the submission when `ctx['run_id'] < self.run_id`; otherwise update
`self.run_id`, pop and set every event in `self.events`, append a fresh
event, and submit the closure.  Returns the new state and the fresh event id
(`none` when the submission was dropped). -/
def run_in_background (st : SchedState) (rid : Int) : SchedState × Option Nat :=
  if rid < st.run_id then
    (st, none)
  else
    ({ run_id := rid
       events := [st.nextId]
       setIds := st.events ++ st.setIds
       nextId := st.nextId + 1
       submitted := st.submitted ++ [st.nextId] }, some st.nextId)

/-- Fold `run_in_background` over a sequence of submissions, recording the
returned token of each. -/
def runSeq (st : SchedState) : List Int → SchedState × List (Option Nat)
  | [] => (st, [])
  | r :: rs =>
    let p := run_in_background st r
    let q := runSeq p.1 rs
    (q.1, p.2 :: q.2)

/-- Admission decisions of a sequence of submissions, starting from tracked
maximum `cur` (the guard of `run_in_background`, extracted). -/
def admitFlags (cur : Int) : List Int → List Bool
  | [] => []
  | r :: rs => if r < cur then false :: admitFlags cur rs else true :: admitFlags r rs

/-- The strict `(run_id, step)`-newer comparison of the consumer loop
(source lines 66-67). -/
def newerCtx (a b : Ctx) : Bool :=
  a.run_id > b.run_id || (a.run_id == b.run_id && a.step > b.step)

/-- Non-strict lexicographic order on contexts, to state which entry the
consumer delivers. -/
def ctxLe (a b : Ctx) : Prop :=
  a.run_id < b.run_id ∨ (a.run_id = b.run_id ∧ a.step ≤ b.step)

/-- The inner `while not self.queue.empty()` drain of `Wilder.consumer`
(source lines 62-70): starting from the blocking-read entry, replace the
current best by each drained entry whose context is strictly newer. -/
def consumerDrain (cur : QueueEntry) : List QueueEntry → QueueEntry
  | [] => cur
  | e :: rest => consumerDrain (if newerCtx e.ctx cur.ctx then e else cur) rest

/-- One cycle of `Wilder.consumer` (source lines 57-76): block for the first
entry, drain the available backlog, then make a single `async_call` carrying
the best entry.  The returned list is the sequence of deliveries of the
cycle. -/
def consumerCycle (first : QueueEntry) (backlog : List QueueEntry) : List QueueEntry :=
  [consumerDrain first backlog]

/-- State of `Wilder.init` relevant scheduler bootstrap: `self.has_init`,
the worker count the executor was built with, and how many consumer threads
were started. -/
structure InitState where
  has_init : Bool
  executorWorkers : Option Nat
  consumerThreads : Nat
  deriving Repr, DecidableEq

/-- `__init__`: `self.has_init = False`, no executor, no consumer thread. -/
def initialInit : InitState :=
  { has_init := false, executorWorkers := none, consumerThreads := 0 }

/-- `Wilder.init` (source lines 78-89): return early when `self.has_init`;
otherwise set the flag, build the executor with `opts['num_workers']`
workers and start the consumer thread. -/
def init (st : InitState) (num_workers : Nat) : InitState :=
  if st.has_init then st
  else { has_init := true
         executorWorkers := some num_workers
         consumerThreads := st.consumerThreads + 1 }

/-- `Wilder.search` (source lines 102-112): when the pattern `args[2]` is
empty, reply synchronously via `self.handle(args[1], [])` and return without
touching the scheduler; otherwise submit `search_handler` through
`run_in_background` (whose context is `args[0]`).  Output: new scheduler
state, token of the submitted closure (if any), and the synchronous reply
(if any). -/
def search (st : SchedState) (a0 : Ctx) (a1 : Ctx) (x : String) :
    SchedState × Option Nat × Option (Ctx × List String) :=
  if x = "" then (st, none, some (a1, []))
  else
    let p := run_in_background st a0.run_id
    (p.1, p.2, none)

/-- Python `str.startswith`. -/
def strStarts (s pre : String) : Bool :=
  pre.data.isPrefixOf s.data

/-- Python `str.endswith`. -/
def strEnds (s suf : String) : Bool :=
  suf.data.isSuffixOf s.data

/-- Python `<` on strings: lexicographic comparison of code points. -/
def charListLt : List Char → List Char → Bool
  | _, [] => false
  | [], _ :: _ => true
  | a :: as, b :: bs => Nat.blt a.toNat b.toNat || (a == b && charListLt as bs)

/-- Python `<=` on strings. -/
def strLe (a b : String) : Bool :=
  a == b || charListLt a.data b.data

/-- Stable insertion: `x` is placed before the first element it is
`le`-related to, so elements equal under `le` keep their original order. -/
def insertSorted (le : α → α → Bool) (x : α) : List α → List α
  | [] => [x]
  | y :: ys => if le x y then x :: y :: ys else y :: insertSorted le x ys

/-- Python `sorted(..., key=...)`: a stable ascending sort. -/
def sortedBy (le : α → α → Bool) : List α → List α
  | [] => []
  | x :: xs => insertSorted le x (sortedBy le xs)

/-- Python `sorted` on a list of strings. -/
def sortedStr (xs : List String) : List String :=
  sortedBy strLe xs

/-- Python `str.split(',')`: split on every comma, keeping empty pieces
(`''.split(',') == ['']`). -/
def splitComma : List Char → List String
  | [] => [""]
  | c :: s =>
    let rest := splitComma s
    if c = ',' then "" :: rest
    else
      match rest with
      | [] => [String.mk [c]]
      | h :: t => String.mk (c :: h.data) :: t

/-- `fnmatch.fnmatch` on posix for patterns built from literals, `*` and `?`
(the only pattern shapes this code builds; character classes are not
modelled).  `fuel` bounds the recursion; every call shrinks
`ps.length + s.length`, so `ps.length + s.length + 1` suffices and is what
`fnmatch` passes. -/
def fnmatchGo : Nat → List Char → List Char → Bool
  | 0, _, _ => false
  | _ + 1, [], s => s.isEmpty
  | fuel + 1, '*' :: ps, s =>
    fnmatchGo fuel ps s ||
      (match s with
       | [] => false
       | _ :: s' => fnmatchGo fuel ('*' :: ps) s')
  | fuel + 1, '?' :: ps, s =>
    (match s with
     | [] => false
     | _ :: s' => fnmatchGo fuel ps s')
  | fuel + 1, p :: ps, s =>
    (match s with
     | [] => false
     | c :: s' => p == c && fnmatchGo fuel ps s')

/-- `fnmatch.fnmatch(name, pat)` (posix `normcase` is the identity). -/
def fnmatch (name pat : String) : Bool :=
  fnmatchGo (pat.length + name.length + 1) pat.data name.data

/-- Index of the last `/` in a character list, if any. -/
def lastSlashIdx : List Char → Option Nat
  | [] => none
  | c :: s =>
    match lastSlashIdx s with
    | some i => some (i + 1)
    | none => if c = '/' then some 0 else none

/-- Drop every trailing `/` (Python `str.rstrip('/')`). -/
def dropTrailingSlashes (l : List Char) : List Char :=
  (l.reverse.dropWhile (fun c => c == '/')).reverse

/-- `posixpath.split`: split at the final slash; the head keeps its
trailing slashes only when it consists of slashes alone. -/
def pathSplit (p : String) : String × String :=
  match lastSlashIdx p.data with
  | none => ("", p)
  | some i =>
    let head0 := p.data.take (i + 1)
    let tail := p.data.drop (i + 1)
    let head := if head0.all (fun c => c == '/') then head0 else dropTrailingSlashes head0
    (String.mk head, String.mk tail)

/-- `posixpath.join` for two components. -/
def pathJoin (a b : String) : String :=
  if strStarts b "/" then b
  else if a = "" || strEnds a "/" then a ++ b
  else a ++ "/" ++ b

/-- `posixpath.dirname`. -/
def dirname (p : String) : String :=
  (pathSplit p).1

/-- `posixpath.basename`. -/
def basenameStr (p : String) : String :=
  (pathSplit p).2

/-- `Wilder.get_basename` (source lines 287-290): strip one trailing
separator, then take the basename. -/
def get_basename (f : String) : String :=
  if strEnds f "/" then basenameStr (String.mk f.data.dropLast) else basenameStr f

/-- Number of UTF-8 bytes of a character list (Python `len(s.encode('utf-8'))`). -/
def utf8Len (l : List Char) : Nat :=
  l.foldl (fun a c => a + c.utf8Size) 0

/-- Abstract syntax of the star-free regex fragment used to model the
external `re` module (literals, concatenation, alternation, numbered
capturing groups).  `re.compile` of a concrete pattern string is modelled by
writing down the corresponding term. -/
inductive Regex where
  | eps
  | lit (c : Char)
  | seq (r1 r2 : Regex)
  | alt (r1 r2 : Regex)
  | group (n : Nat) (r : Regex)
  deriving Repr, DecidableEq

/-- Capture records in completion order: `(group index, start, end)` in
character offsets. -/
abbrev Caps := List (Nat × Nat × Nat)

/-- All matches of `r` against `s` at position `pos`, in the priority order
of Python's backtracking engine (left alternative first); each result is the
end position together with the captures recorded on the way, in completion
order. -/
def rmatches : Regex → List Char → Nat → List (Nat × Caps)
  | .eps, _, pos => [(pos, [])]
  | .lit c, s, pos =>
    (match s[pos]? with
     | some c' => if c' = c then [(pos + 1, ([] : Caps))] else []
     | none => [])
  | .seq r1 r2, s, pos =>
    (rmatches r1 s pos).flatMap (fun p1 =>
      (rmatches r2 s p1.1).map (fun p2 => (p2.1, p1.2 ++ p2.2)))
  | .alt r1 r2, s, pos => rmatches r1 s pos ++ rmatches r2 s pos
  | .group n r, s, pos =>
    (rmatches r s pos).map (fun p => (p.1, p.2 ++ [(n, pos, p.1)]))

/-- Python `re.match`: the pattern is attempted at position 0 only
(anchored); the backtracking engine reports the first result. -/
def reMatch (r : Regex) (s : List Char) : Option (Nat × Caps) :=
  (rmatches r s 0).head?

/-- Leftmost match at position `>= pos` (the scan Python's `search` and
`finditer` perform).  `fuel` bounds the scan; `s.length + 1 - pos`
suffices. -/
def reSearchFrom (r : Regex) (s : List Char) : Nat → Nat → Option (Nat × Nat × Caps)
  | _, 0 => none
  | pos, fuel + 1 =>
    (match (rmatches r s pos).head? with
     | some p => some (pos, p.1, p.2)
     | none => if pos ≥ s.length then none else reSearchFrom r s (pos + 1) fuel)

/-- Python `pattern.search(s)`: leftmost match anywhere in `s`. -/
def reSearch (r : Regex) (s : List Char) : Option (Nat × Nat × Caps) :=
  reSearchFrom r s 0 (s.length + 1)

/-- Python `pattern.finditer(s)`: the spans of successive non-overlapping
leftmost matches; an empty match advances the scan by one character. -/
def findIterFrom (r : Regex) (s : List Char) : Nat → Nat → List (Nat × Nat)
  | _, 0 => []
  | pos, fuel + 1 =>
    (match reSearchFrom r s pos (s.length + 1 - pos) with
     | none => []
     | some q => (q.1, q.2.1) ::
         findIterFrom r s (if q.2.1 = q.1 then q.1 + 1 else q.2.1) fuel)

/-- The substrings `match.group()` yields while iterating
`pattern.finditer(line)`. -/
def findIter (r : Regex) (s : List Char) : List String :=
  (findIterFrom r s 0 (s.length + 2)).map
    (fun p => String.mk ((s.drop p.1).take (p.2 - p.1)))

/-- `match.lastindex`: the index of the capturing group whose match
completed last, `none` when no group participated. -/
def lastIndexOf (caps : Caps) : Option Nat :=
  caps.getLast?.map (fun c => c.1)

/-- `match.start(i)`/`match.end(i)` as a pair: the span recorded the last
time group `i` matched, `none` (Python: `-1`) when the group did not
participate in the match. -/
def capSpanOf (caps : Caps) (i : Nat) : Option (Nat × Nat) :=
  (caps.reverse.find? (fun c => c.1 == i)).map (fun c => c.2)

/-- `Wilder.extract_captures` (source lines 346-373): anchored-match the
compiled pattern against `string` with `re.match`; return `[]` when there is
no match or `match.lastindex` is falsy; otherwise, for each group
`1..lastindex` that participated with a non-empty span, return its
`[byte_start, byte_end]` where `byte_start` counts the UTF-8 bytes of the
text before the group and `byte_end` is inclusive. -/
def extract_captures (r : Regex) (string : String) : List (List Nat) :=
  match reMatch r string.data with
  | none => []
  | some q =>
    match lastIndexOf q.2 with
    | none => []
    | some li =>
      (List.range' 1 li).filterMap (fun i =>
        match capSpanOf q.2 i with
        | none => none
        | some sp =>
          if sp.1 = sp.2 then none
          else
            let byteStart := utf8Len (string.data.take sp.1)
            let byteEnd :=
              byteStart + utf8Len ((string.data.drop sp.1).take (sp.2 - sp.1)) - 1
            some [byteStart, byteEnd])

/-- The compiled form of the pattern `"(ab)(cd)"`. -/
def patAbCd : Regex :=
  .seq (.group 1 (.seq (.lit 'a') (.lit 'b'))) (.group 2 (.seq (.lit 'c') (.lit 'd')))

/-- Result of running one handler body: the tuples it `put` on
`self.queue`, whether it returned early because a poll observed the event
set, and whether it removed its own event from `self.events` on the way
out.  `sched n` is the value `event.is_set()` returns at the handler's
`n`-th poll point. -/
structure HandlerOut where
  emits : List QueueEntry
  cancelled : Bool
  removed : Bool
  deriving Repr, DecidableEq

/-- `Wilder.sleep_handler` (source lines 95-100): one poll on entry, then
sleep and pass `x` through to the queue.  No `try`/`finally`: the event is
never removed. -/
def sleep_handler (sched : Nat → Bool) (ctx : Ctx) (x : List String) : HandlerOut :=
  if sched 0 then ⟨[], true, false⟩
  else ⟨[⟨ctx, .ok x, .resolve⟩], false, false⟩

/-- Inner `for match in pattern.finditer(line)` loop of
`Wilder.search_handler` (source lines 131-140): one poll per match, dedup
by `seen`, emit early once `max_candidates` is reached.  Returns either the
handler's result (cancellation or early emission) or the updated poll
counter, seen set and candidate list. -/
def searchMatches (sched : Nat → Bool) (ctx : Ctx) (maxC : Int) :
    List String → Nat → List String → List String →
      HandlerOut ⊕ (Nat × List String × List String)
  | [], n, seen, cands => Sum.inr (n, seen, cands)
  | m :: ms, n, seen, cands =>
    if sched n then Sum.inl ⟨[], true, true⟩
    else if seen.contains m then
      searchMatches sched ctx maxC ms (n + 1) seen cands
    else
      if maxC > 0 ∧ (((cands ++ [m]).length : Int) ≥ maxC) then
        Sum.inl ⟨[⟨ctx, .ok (cands ++ [m]), .resolve⟩], false, true⟩
      else
        searchMatches sched ctx maxC ms (n + 1) (seen ++ [m]) (cands ++ [m])

/-- Outer `for line in buf` loop of `Wilder.search_handler` (source lines
128-141): one poll per line, then the match loop; after the last line the
accumulated candidates are emitted. -/
def searchLines (sched : Nat → Bool) (ctx : Ctx) (pat : Regex) (maxC : Int) :
    List String → Nat → List String → List String → HandlerOut
  | [], _, _, cands => ⟨[⟨ctx, .ok cands, .resolve⟩], false, true⟩
  | line :: rest, n, seen, cands =>
    if sched n then ⟨[], true, true⟩
    else
      match searchMatches sched ctx maxC (findIter pat line.data) (n + 1) seen cands with
      | Sum.inl out => out
      | Sum.inr q => searchLines sched ctx pat maxC rest q.1 q.2.1 q.2.2

/-- `Wilder.search_handler` (source lines 114-146): one poll on entry
(before the `try`), then compile the pattern (`compiled` is the outcome of
`importlib.import_module(opts['engine'])` plus `re.compile(x)`, both
external), then the line/match loops.  `maxC` is `opts['max_candidates']`
(source default 300).  A failure inside the `try` emits one
`'python_search: '`-prefixed reject; the `finally` removes the event
whenever the `try` was entered. -/
def search_handler (sched : Nat → Bool) (ctx : Ctx) (compiled : Except String Regex)
    (maxC : Int) (buf : List String) : HandlerOut :=
  if sched 0 then ⟨[], true, false⟩
  else
    match compiled with
    | .error e => ⟨[⟨ctx, .err ("python_search: " ++ e), .reject⟩], false, true⟩
    | .ok pat => searchLines sched ctx pat maxC buf 1 [] []

/-- The comprehension of `Wilder.uniq_handler`:
`[x for x in candidates if not (x in seen or seen.add(x))]`. -/
def dedupKeepFirst : List String → List String → List String
  | _, [] => []
  | seen, x :: xs =>
    if seen.contains x then dedupKeepFirst seen xs
    else x :: dedupKeepFirst (seen ++ [x]) xs

/-- `Wilder.uniq_handler` (source lines 152-162): one poll on entry, then
first-occurrence dedup.  No event removal. -/
def uniq_handler (sched : Nat → Bool) (ctx : Ctx) (candidates : List String) : HandlerOut :=
  if sched 0 then ⟨[], true, false⟩
  else ⟨[⟨ctx, .ok (dedupKeepFirst [] candidates), .resolve⟩], false, false⟩

/-- `Wilder.sort_handler` (source lines 168-177): one poll on entry, then
`sorted(candidates)`.  No event removal. -/
def sort_handler (sched : Nat → Bool) (ctx : Ctx) (candidates : List String) : HandlerOut :=
  if sched 0 then ⟨[], true, false⟩
  else ⟨[⟨ctx, .ok (sortedStr candidates), .resolve⟩], false, false⟩

/-- `Wilder.get_users_handler` (source lines 296-310): one poll on entry,
then the names of `pwd.getpwall()` (external, passed as `pwall`) that start
with `expand_arg`, sorted.  No event removal. -/
def get_users_handler (sched : Nat → Bool) (ctx : Ctx) (expand_arg : String)
    (pwall : List String) : HandlerOut :=
  if sched 0 then ⟨[], true, false⟩
  else
    ⟨[⟨ctx, .ok (sortedStr (pwall.filter (fun u => strStarts u expand_arg))), .resolve⟩],
      false, false⟩

/-- `Wilder.filter_handler` (source lines 316-326): one poll on entry;
`compiled` is the outcome of importing `engine` and compiling `pattern`
(external); keep the candidates on which `pattern.search` succeeds, against
the basename when `has_file_args`.  A failure emits one
`'python_filter: '`-prefixed reject.  No event removal. -/
def filter_handler (sched : Nat → Bool) (ctx : Ctx)
    (compiled : Except String Regex) (candidates : List String)
    (has_file_args : Bool) : HandlerOut :=
  if sched 0 then ⟨[], true, false⟩
  else
    match compiled with
    | .error e => ⟨[⟨ctx, .err ("python_filter: " ++ e), .reject⟩], false, false⟩
    | .ok pat =>
      let res := candidates.filter (fun x =>
        (reSearch pat (if has_file_args then get_basename x else x).data).isSome)
      ⟨[⟨ctx, .ok res, .resolve⟩], false, false⟩

/-- `Wilder.fuzzywuzzy_handler` (source lines 332-344): one poll on entry;
`fuzzy` is the outcome of `importlib.import_module('fuzzywuzzy.fuzz')`
(external), modelled as the pair of its two scoring functions (the first
used when the `partial` keyword is true, the second otherwise); candidates
are stably sorted by negated score.  NOTE the source prefixes failures with
`'python_filter: '`, not a fuzzywuzzy-specific name.  No event removal. -/
def fuzzywuzzy_handler (sched : Nat → Bool) (ctx : Ctx) (candidates : List String)
    (query : String) (pmode : Bool)
    (fuzzy : Except String ((String → String → Int) × (String → String → Int))) :
    HandlerOut :=
  if sched 0 then ⟨[], true, false⟩
  else
    match fuzzy with
    | .error e => ⟨[⟨ctx, .err ("python_filter: " ++ e), .reject⟩], false, false⟩
    | .ok fz =>
      let key : String → Int := fun x => -(if pmode then fz.1 x query else fz.2 x query)
      ⟨[⟨ctx, .ok (sortedBy (fun a b => decide (key a ≤ key b)) candidates), .resolve⟩],
        false, false⟩

/-- One `os.scandir` entry: its name and the type/permission facts the
handler queries. -/
structure Dirent where
  name : String
  isDir : Bool
  isFile : Bool
  exec : Bool
  deriving Repr, DecidableEq

/-- Inner `for entry in it` loop of `Wilder.get_file_completion_handler`
(source lines 236-270) for the non-wildcard branch: one poll per entry,
then the hidden/type/wildignore/pattern/shellcmd filters in source order;
directories get a trailing separator.  `none` means a poll observed the
event set. -/
def fileEntries (sched : Nat → Bool) (expand_type : String) (show_hidden : Bool)
    (wl : List String) (pat : String) :
    List Dirent → Nat → List String → Option (Nat × List String)
  | [], n, res => some (n, res)
  | e :: es, n, res =>
    if sched n then none
    else
      let skip : Bool :=
        (strStarts e.name "." && !show_hidden) ||
        (expand_type == "dir" && !e.isDir) ||
        wl.any (fun w => fnmatch e.name w) ||
        (!(pat == "") && !fnmatch e.name pat) ||
        (expand_type == "shellcmd" && (!e.isFile || !e.exec))
      let res' := if skip then res else res ++ [if e.isDir then e.name ++ "/" else e.name]
      fileEntries sched expand_type show_hidden wl pat es (n + 1) res'

/-- Outer `for directory in directories` loop of
`Wilder.get_file_completion_handler` (source lines 211-270) for the
non-wildcard branch: one poll per directory, skip empty names, join the
directory with `expand_arg`, split off the typed tail (which decides
hidden-file visibility and becomes the `tail + '*'` filter), list the head
directory (`scandir`, external; `none` = `FileNotFoundError`, skipped), and
run the entry loop. -/
def fileDirs (sched : Nat → Bool) (expand_arg expand_type : String)
    (scandir : String → Option (List Dirent)) (wl : List String) :
    List String → Nat → List String → Option (Nat × List String)
  | [], n, res => some (n, res)
  | d :: ds, n, res =>
    if sched n then none
    else if d = "" then fileDirs sched expand_arg expand_type scandir wl ds (n + 1) res
    else
      let ht := pathSplit (pathJoin d expand_arg)
      let show_hidden := strStarts ht.2 "."
      let pat := ht.2 ++ "*"
      match scandir ht.1 with
      | none => fileDirs sched expand_arg expand_type scandir wl ds (n + 1) res
      | some entries =>
        match fileEntries sched expand_type show_hidden wl pat entries (n + 1) res with
        | none => none
        | some q => fileDirs sched expand_arg expand_type scandir wl ds q.1 q.2

/-- `Wilder.get_file_completion_handler` (source lines 194-285) for
`has_wildcard = False` (the wildcard branch delegates to `glob.iglob`, an
external collaborator the claims do not touch).  After the loops: sort,
re-attach the typed directory part, and prepend the `./`/`../` navigation
entries when `expand_arg` is `.` or `..`.  No event removal. -/
def get_file_completion_handler (sched : Nat → Bool) (ctx : Ctx)
    (expand_arg expand_type : String) (directories : List String)
    (wildignore_opt : String) (scandir : String → Option (List Dirent)) : HandlerOut :=
  if sched 0 then ⟨[], true, false⟩
  else
    let wl := splitComma wildignore_opt.data
    match fileDirs sched expand_arg expand_type scandir wl directories 1 [] with
    | none => ⟨[], true, false⟩
    | some q =>
      let res := sortedStr q.2
      let head := dirname expand_arg
      let res1 := if head = "" then res else res.map (fun f => pathJoin head f)
      let res2 :=
        if expand_arg = "." then "./" :: "../" :: res1
        else if expand_arg = ".." then "../" :: res1
        else res1
      ⟨[⟨ctx, .ok res2, .resolve⟩], false, false⟩

/-- The directory contents of the filesystem-completion example:
`{a.txt, .hidden, sub/}`. -/
def exampleDirents : List Dirent :=
  [⟨"a.txt", false, true, false⟩, ⟨".hidden", false, true, false⟩, ⟨"sub", true, false, false⟩]

/-- A one-directory filesystem at `/tmp/dir` holding `exampleDirents`. -/
def exampleScandir : String → Option (List Dirent) :=
  fun d => if d = "/tmp/dir" then some exampleDirents else none

/-- A poll schedule on which the event is never set. -/
def schedNever : Nat → Bool := fun _ => false

/-- A poll schedule on which the event is set from the start. -/
def schedAlways : Nat → Bool := fun _ => true

/-- The comparison `run_in_background` performs, as a `(run_id, step)`-free
predicate on the tracked maximum. -/
theorem run_in_background_drop (st : SchedState) (rid : Int) (h : rid < st.run_id) :
    run_in_background st rid = (st, none) := by
  simp [run_in_background, h]

theorem run_in_background_admit (st : SchedState) (rid : Int) (h : ¬ rid < st.run_id) :
    run_in_background st rid =
      ({ run_id := rid
         events := [st.nextId]
         setIds := st.events ++ st.setIds
         nextId := st.nextId + 1
         submitted := st.submitted ++ [st.nextId] }, some st.nextId) := by
  simp [run_in_background, h]

theorem runSeq_flags (st : SchedState) (rs : List Int) :
    ((runSeq st rs).2.map Option.isSome) = admitFlags st.run_id rs := by
  induction rs generalizing st with
  | nil => simp [runSeq, admitFlags]
  | cons r rs ih =>
    by_cases h : r < st.run_id
    · simp [runSeq, admitFlags, run_in_background, h, ih]
    · simp [runSeq, admitFlags, run_in_background, h, ih]

theorem admitFlags_length (cur : Int) (rs : List Int) :
    (admitFlags cur rs).length = rs.length := by
  induction rs generalizing cur with
  | nil => rfl
  | cons r rs ih =>
    by_cases h : r < cur <;> simp [admitFlags, h, ih]

theorem admitFlags_get (cur : Int) (rs : List Int) (i : Nat) (hi : i < rs.length) :
    (admitFlags cur rs).get ⟨i, by rw [admitFlags_length]; exact hi⟩ =
      decide ((rs.take i).foldl max cur ≤ rs.get ⟨i, hi⟩) := by
  induction rs generalizing cur i with
  | nil => simp at hi
  | cons r rs ih =>
    cases i with
    | zero =>
      by_cases h : r < cur
      · have hle : ¬ (cur ≤ r) := by omega
        simp [admitFlags, h, hle]
      · have hle : cur ≤ r := by omega
        simp [admitFlags, h, hle]
    | succ i =>
      have hi' : i < rs.length := Nat.lt_of_succ_lt_succ hi
      by_cases h : r < cur
      · have hmax : max cur r = cur := max_eq_left (by omega)
        simpa [admitFlags, h, List.take_succ_cons, List.foldl_cons, hmax] using ih cur i hi'
      · have hmax : max cur r = r := max_eq_right (by omega)
        simpa [admitFlags, h, List.take_succ_cons, List.foldl_cons, hmax] using ih r i hi'

theorem admitFlags_getElem (cur : Int) (rs : List Int) (i : Nat) (r : Int)
    (hr : rs[i]? = some r) :
    (admitFlags cur rs)[i]? = some (decide ((rs.take i).foldl max cur ≤ r)) := by
  induction rs generalizing cur i with
  | nil => simp at hr
  | cons r' rs ih =>
    cases i with
    | zero =>
      simp only [List.getElem?_cons_zero, Option.some.injEq] at hr
      subst hr
      by_cases h : r' < cur
      · have hle : ¬ (cur ≤ r') := by omega
        simp [admitFlags, h, hle]
      · have hle : cur ≤ r' := by omega
        simp [admitFlags, h, hle]
    | succ i =>
      simp only [List.getElem?_cons_succ] at hr
      by_cases h : r' < cur
      · have hmax : max cur r' = cur := max_eq_left (by omega)
        simpa [admitFlags, h, List.take_succ_cons, List.foldl_cons, hmax] using ih cur i hr
      · have hmax : max cur r' = r' := max_eq_right (by omega)
        simpa [admitFlags, h, List.take_succ_cons, List.foldl_cons, hmax] using ih r' i hr

theorem ctxLe_refl (a : Ctx) : ctxLe a a := by
  simp [ctxLe]

theorem ctxLe_trans {a b c : Ctx} (h1 : ctxLe a b) (h2 : ctxLe b c) : ctxLe a c := by
  rcases h1 with h1 | ⟨h1, h1'⟩ <;> rcases h2 with h2 | ⟨h2, h2'⟩ <;>
    simp [ctxLe] <;> omega

theorem ctxLe_of_newer_true {a b : Ctx} (h : newerCtx a b = true) : ctxLe b a := by
  simp only [newerCtx, Bool.or_eq_true, Bool.and_eq_true, beq_iff_eq, decide_eq_true_eq] at h
  rcases h with h | ⟨h, h'⟩
  · exact Or.inl h
  · exact Or.inr ⟨h.symm, le_of_lt h'⟩

theorem ctxLe_of_newer_false {a b : Ctx} (h : newerCtx a b = false) : ctxLe a b := by
  simp only [newerCtx, Bool.or_eq_false_iff, Bool.and_eq_false_iff] at h
  obtain ⟨h1, h2⟩ := h
  simp only [decide_eq_false_iff_not, not_lt] at h1
  rcases lt_or_eq_of_le h1 with hlt | heq
  · exact Or.inl hlt
  · refine Or.inr ⟨heq, ?_⟩
    rcases h2 with h2 | h2
    · simp only [beq_eq_false_iff_ne, ne_eq] at h2
      exact absurd heq h2
    · simp only [decide_eq_false_iff_not, not_lt] at h2
      exact h2

theorem consumerDrain_mem (cur : QueueEntry) (l : List QueueEntry) :
    consumerDrain cur l ∈ cur :: l := by
  induction l generalizing cur with
  | nil => simp [consumerDrain]
  | cons e rest ih =>
    simp only [consumerDrain]
    by_cases h : newerCtx e.ctx cur.ctx
    · have := ih e
      simp only [if_pos h]
      rcases List.mem_cons.mp this with h' | h'
      · exact List.mem_cons.mpr (Or.inr (List.mem_cons.mpr (Or.inl h')))
      · exact List.mem_cons.mpr (Or.inr (List.mem_cons.mpr (Or.inr h')))
    · have := ih cur
      simp only [if_neg h]
      rcases List.mem_cons.mp this with h' | h'
      · exact List.mem_cons.mpr (Or.inl h')
      · exact List.mem_cons.mpr (Or.inr (List.mem_cons.mpr (Or.inr h')))

theorem consumerDrain_ge (cur : QueueEntry) (l : List QueueEntry) :
    ∀ e ∈ cur :: l, ctxLe e.ctx (consumerDrain cur l).ctx := by
  induction l generalizing cur with
  | nil =>
    intro e he
    simp only [List.mem_singleton] at he
    subst he
    exact ctxLe_refl _
  | cons x rest ih =>
    intro e he
    simp only [consumerDrain]
    have hcur : ctxLe cur.ctx (if newerCtx x.ctx cur.ctx then x else cur).ctx := by
      by_cases h : newerCtx x.ctx cur.ctx
      · simpa [h] using ctxLe_of_newer_true h
      · simp only [Bool.not_eq_true] at h
        simp [h, ctxLe_refl]
    have hx : ctxLe x.ctx (if newerCtx x.ctx cur.ctx then x else cur).ctx := by
      by_cases h : newerCtx x.ctx cur.ctx
      · simp [h, ctxLe_refl]
      · simp only [Bool.not_eq_true] at h
        simpa [h] using ctxLe_of_newer_false h
    rcases List.mem_cons.mp he with he | he
    · subst he
      exact ctxLe_trans hcur
        (ih _ _ (List.mem_cons.mpr (Or.inl rfl)))
    · rcases List.mem_cons.mp he with he | he
      · subst he
        exact ctxLe_trans hx
          (ih _ _ (List.mem_cons.mpr (Or.inl rfl)))
      · exact ih _ e (List.mem_cons.mpr (Or.inr he))


theorem searchMatches_inl_spec (sched : Nat → Bool) (ctx : Ctx) (maxC : Int)
    (ms : List String) (n : Nat) (seen cands : List String) (out : HandlerOut)
    (h : searchMatches sched ctx maxC ms n seen cands = Sum.inl out) :
    out.removed = true ∧ (out.cancelled = true → out.emits = []) := by
  induction ms generalizing n seen cands with
  | nil => simp [searchMatches] at h
  | cons m ms ih =>
    simp only [searchMatches] at h
    split at h
    · cases h
      exact ⟨rfl, fun _ => rfl⟩
    · split at h
      · exact ih _ _ _ h
      · split at h
        · cases h
          refine ⟨rfl, ?_⟩
          intro hcc
          simp at hcc
        · exact ih _ _ _ h

theorem searchLines_spec (sched : Nat → Bool) (ctx : Ctx) (pat : Regex) (maxC : Int)
    (lines : List String) (n : Nat) (seen cands : List String) :
    (searchLines sched ctx pat maxC lines n seen cands).removed = true ∧
    ((searchLines sched ctx pat maxC lines n seen cands).cancelled = true →
      (searchLines sched ctx pat maxC lines n seen cands).emits = []) := by
  induction lines generalizing n seen cands with
  | nil =>
    refine ⟨rfl, ?_⟩
    intro h
    simp [searchLines] at h
  | cons line rest ih =>
    by_cases hs : sched n = true
    · simp [searchLines, hs]
    · simp only [searchLines, hs, Bool.false_eq_true, if_false]
      cases hm : searchMatches sched ctx maxC (findIter pat line.data) (n + 1) seen cands with
      | inl out => exact searchMatches_inl_spec sched ctx maxC _ _ _ _ out hm
      | inr q => exact ih q.1 q.2.1 q.2.2

theorem search_handler_removed (sched : Nat → Bool) (ctx : Ctx)
    (compiled : Except String Regex) (maxC : Int) (buf : List String) :
    (search_handler sched ctx compiled maxC buf).removed = !(sched 0) := by
  by_cases hs : sched 0 = true
  · simp [search_handler, hs]
  · simp only [Bool.not_eq_true] at hs
    cases compiled with
    | error e => simp [search_handler, hs]
    | ok pat => simp [search_handler, hs, (searchLines_spec sched ctx pat maxC buf 1 [] []).1]

theorem search_handler_cancel (sched : Nat → Bool) (ctx : Ctx)
    (compiled : Except String Regex) (maxC : Int) (buf : List String)
    (h : (search_handler sched ctx compiled maxC buf).cancelled = true) :
    (search_handler sched ctx compiled maxC buf).emits = [] := by
  by_cases hs : sched 0 = true
  · simp [search_handler, hs]
  · simp only [Bool.not_eq_true] at hs
    cases compiled with
    | error e => simp [search_handler, hs] at h
    | ok pat =>
      simp only [search_handler, hs, Bool.false_eq_true, if_false] at h ⊢
      exact (searchLines_spec sched ctx pat maxC buf 1 [] []).2 h

theorem file_handler_cancel (sched : Nat → Bool) (ctx : Ctx)
    (expand_arg expand_type : String) (directories : List String)
    (wildignore_opt : String) (scandir : String → Option (List Dirent))
    (h : (get_file_completion_handler sched ctx expand_arg expand_type directories
            wildignore_opt scandir).cancelled = true) :
    (get_file_completion_handler sched ctx expand_arg expand_type directories
        wildignore_opt scandir).emits = [] := by
  by_cases hs : sched 0 = true
  · simp [get_file_completion_handler, hs]
  · simp only [Bool.not_eq_true] at hs
    simp only [get_file_completion_handler, hs, Bool.false_eq_true, if_false] at h ⊢
    cases hq : fileDirs sched expand_arg expand_type scandir
        (splitComma wildignore_opt.data) directories 1 [] with
    | none => simp [hq]
    | some q => simp [hq] at h

theorem file_handler_removed (sched : Nat → Bool) (ctx : Ctx)
    (expand_arg expand_type : String) (directories : List String)
    (wildignore_opt : String) (scandir : String → Option (List Dirent)) :
    (get_file_completion_handler sched ctx expand_arg expand_type directories
        wildignore_opt scandir).removed = false := by
  by_cases hs : sched 0 = true
  · simp [get_file_completion_handler, hs]
  · simp only [Bool.not_eq_true] at hs
    simp only [get_file_completion_handler, hs, Bool.false_eq_true, if_false]
    cases hq : fileDirs sched expand_arg expand_type scandir
        (splitComma wildignore_opt.data) directories 1 [] with
    | none => simp [hq]
    | some q => simp [hq]
/-- Claim C1: admission is monotone in `run_id` — a submission with
`run_id` strictly below the tracked maximum is dropped with no state change
(no token registered, no closure submitted), one with `run_id` at least the
maximum is admitted, hands out a fresh token, submits the closure and
updates the tracked maximum; over any sequence of submissions from the
fresh state, the i-th is admitted iff its `run_id` is at least the fold of
`max` over the preceding run_ids (base `-1`, the initial `self.run_id`);
the sequence `[3,5,2,5]` admits the 1st, 2nd and 4th and drops the 3rd. -/
theorem C1_admission_monotone :
    (∀ (st : SchedState) (rid : Int), rid < st.run_id →
      run_in_background st rid = (st, none)) ∧
    (∀ (st : SchedState) (rid : Int), ¬ rid < st.run_id →
      (run_in_background st rid).1.run_id = rid ∧
      (run_in_background st rid).2 = some st.nextId ∧
      (run_in_background st rid).1.submitted = st.submitted ++ [st.nextId]) ∧
    (∀ (rs : List Int) (i : Nat) (r : Int), rs[i]? = some r →
      ((runSeq initialSched rs).2.map Option.isSome)[i]? =
        some (decide ((rs.take i).foldl max (-1) ≤ r))) ∧
    (runSeq initialSched [3, 5, 2, 5]).2.map Option.isSome =
      [true, true, false, true] := by
  refine ⟨?_, ?_, ?_, by decide⟩
  · intro st rid h
    simp [run_in_background, h]
  · intro st rid h
    simp [run_in_background, h]
  · intro rs i r hr
    rw [runSeq_flags]
    exact admitFlags_getElem (-1) rs i r hr

theorem C1_admission_monotone_witness :
    run_in_background
        { run_id := 5, events := [0], setIds := [], nextId := 1, submitted := [0] } 2 =
      ({ run_id := 5, events := [0], setIds := [], nextId := 1, submitted := [0] }, none) :=
  C1_admission_monotone.1 _ 2 (by decide)

/-- Claim C2: one drain cycle of the consumer delivers exactly one entry;
the delivered entry is among the available entries and its
`(run_id, step)` is a lexicographic maximum of the cycle's entries; for the
backlog `(1,1),(1,2),(1,3)` the single delivery is the `(1,3)` entry. -/
theorem C2_consumer_coalesces :
    (∀ (first : QueueEntry) (backlog : List QueueEntry),
      (consumerCycle first backlog).length = 1) ∧
    (∀ (first : QueueEntry) (backlog : List QueueEntry) (d : QueueEntry),
      d ∈ consumerCycle first backlog →
        d ∈ first :: backlog ∧ ∀ e ∈ first :: backlog, ctxLe e.ctx d.ctx) ∧
    consumerCycle ⟨⟨1, 1⟩, .ok ["a"], .resolve⟩
        [⟨⟨1, 2⟩, .ok ["b"], .resolve⟩, ⟨⟨1, 3⟩, .ok ["c"], .resolve⟩] =
      [⟨⟨1, 3⟩, .ok ["c"], .resolve⟩] := by
  refine ⟨fun _ _ => rfl, ?_, by decide⟩
  intro first backlog d hd
  simp only [consumerCycle, List.mem_singleton] at hd
  subst hd
  exact ⟨consumerDrain_mem first backlog, consumerDrain_ge first backlog⟩

theorem C2_consumer_coalesces_witness :
    (⟨⟨1, 3⟩, .ok ["c"], .resolve⟩ : QueueEntry) ∈
        (⟨⟨1, 1⟩, .ok ["a"], .resolve⟩ : QueueEntry) ::
          [⟨⟨1, 2⟩, .ok ["b"], .resolve⟩, ⟨⟨1, 3⟩, .ok ["c"], .resolve⟩] ∧
      ∀ e ∈ (⟨⟨1, 1⟩, .ok ["a"], .resolve⟩ : QueueEntry) ::
          [⟨⟨1, 2⟩, .ok ["b"], .resolve⟩, ⟨⟨1, 3⟩, .ok ["c"], .resolve⟩],
        ctxLe e.ctx (⟨⟨1, 3⟩, .ok ["c"], .resolve⟩ : QueueEntry).ctx :=
  C2_consumer_coalesces.2.1 ⟨⟨1, 1⟩, .ok ["a"], .resolve⟩
    [⟨⟨1, 2⟩, .ok ["b"], .resolve⟩, ⟨⟨1, 3⟩, .ok ["c"], .resolve⟩]
    ⟨⟨1, 3⟩, .ok ["c"], .resolve⟩ (by decide)

/-- Claim C4: on an admitted submission, every token that was in the pending
set is set and removed before the critical section exits, and the fresh
token (and only it) is registered; hence after admission at most one pending
token is not cancelled, and the fresh one is indeed not cancelled. -/
theorem C4_single_winner (st : SchedState) (rid : Int) (st' : SchedState) (tok : Nat)
    (h : run_in_background st rid = (st', some tok))
    (hfresh : st.nextId ∉ st.events ∧ st.nextId ∉ st.setIds) :
    (∀ e ∈ st.events, e ∈ st'.setIds) ∧
    (∀ e ∈ st.events, e ∉ st'.events) ∧
    st'.events = [tok] ∧
    tok ∉ st'.setIds ∧
    (st'.events.filter (fun e => !st'.setIds.contains e)).length ≤ 1 := by
  by_cases hlt : rid < st.run_id
  · simp [run_in_background, hlt] at h
  · simp only [run_in_background] at h
    rw [if_neg hlt] at h
    injection h with h1 h2
    injection h2 with h2
    subst h1
    subst h2
    refine ⟨?_, ?_, rfl, ?_, ?_⟩
    · intro e he
      exact List.mem_append.mpr (Or.inl he)
    · intro e he hmem
      simp only [List.mem_singleton] at hmem
      exact hfresh.1 (hmem ▸ he)
    · intro hmem
      rcases List.mem_append.mp hmem with hmem | hmem
      · exact hfresh.1 hmem
      · exact hfresh.2 hmem
    · exact List.length_filter_le _ _

theorem C4_single_winner_witness :
    (∀ e ∈ [0], e ∈ ([0] ++ [] : List Nat)) ∧
    (∀ e ∈ [0], e ∉ [1]) ∧
    ([1] : List Nat) = [1] ∧
    (1 : Nat) ∉ ([0] ++ [] : List Nat) ∧
    (([1] : List Nat).filter (fun e => !(([0] ++ [] : List Nat).contains e))).length ≤ 1 :=
  C4_single_winner
    { run_id := 1, events := [0], setIds := [], nextId := 1, submitted := [0] } 2
    { run_id := 2, events := [1], setIds := [0] ++ [], nextId := 2, submitted := [0] ++ [1] } 1
    (by decide) (by decide)

/-- Claim C9: an empty search pattern bypasses the scheduler — `search`
replies synchronously with an empty candidate list and leaves the scheduler
state untouched: no token is registered, no closure is submitted, nothing
is enqueued. -/
theorem C9_empty_search_fast_path (st : SchedState) (a0 a1 : Ctx) (x : String)
    (h : x = "") :
    search st a0 a1 x = (st, none, some (a1, [])) := by
  simp [search, h]

theorem C9_empty_search_fast_path_witness :
    search initialSched ⟨1, 0⟩ ⟨1, 0⟩ "" = (initialSched, none, some (⟨1, 0⟩, [])) :=
  C9_empty_search_fast_path initialSched ⟨1, 0⟩ ⟨1, 0⟩ "" rfl

/-- Claim C10: initialization is idempotent — any second call to `init` is a
no-op whatever options it carries, and from the fresh state one call builds
the executor with the requested worker count and starts exactly one
consumer thread. -/
theorem C10_init_idempotent (st : InitState) (w1 w2 : Nat) :
    init (init st w1) w2 = init st w1 ∧
    (init initialInit w1).has_init = true ∧
    (init initialInit w1).executorWorkers = some w1 ∧
    (init initialInit w1).consumerThreads = 1 := by
  refine ⟨?_, by simp [init, initialInit], by simp [init, initialInit],
    by simp [init, initialInit]⟩
  by_cases h : st.has_init
  · simp [init, h]
  · simp [init, h]
/-- Claim C3: a cancelled operation never writes to the result queue — for
every handler, if the event is observed set at the entry poll the handler
emits nothing, and whenever any poll point observes the event set
(`cancelled = true`) the handler returns with no emission. -/
theorem C3_cancelled_never_emits :
    (∀ sched ctx x,
      (sched 0 = true → (sleep_handler sched ctx x).emits = []) ∧
      ((sleep_handler sched ctx x).cancelled = true →
        (sleep_handler sched ctx x).emits = [])) ∧
    (∀ sched ctx compiled maxC buf,
      (sched 0 = true → (search_handler sched ctx compiled maxC buf).emits = []) ∧
      ((search_handler sched ctx compiled maxC buf).cancelled = true →
        (search_handler sched ctx compiled maxC buf).emits = [])) ∧
    (∀ sched ctx cands,
      (sched 0 = true → (uniq_handler sched ctx cands).emits = []) ∧
      ((uniq_handler sched ctx cands).cancelled = true →
        (uniq_handler sched ctx cands).emits = [])) ∧
    (∀ sched ctx cands,
      (sched 0 = true → (sort_handler sched ctx cands).emits = []) ∧
      ((sort_handler sched ctx cands).cancelled = true →
        (sort_handler sched ctx cands).emits = [])) ∧
    (∀ sched ctx ea et dirs wo sd,
      (sched 0 = true →
        (get_file_completion_handler sched ctx ea et dirs wo sd).emits = []) ∧
      ((get_file_completion_handler sched ctx ea et dirs wo sd).cancelled = true →
        (get_file_completion_handler sched ctx ea et dirs wo sd).emits = [])) ∧
    (∀ sched ctx ea pwall,
      (sched 0 = true → (get_users_handler sched ctx ea pwall).emits = []) ∧
      ((get_users_handler sched ctx ea pwall).cancelled = true →
        (get_users_handler sched ctx ea pwall).emits = [])) ∧
    (∀ sched ctx compiled cands hfa,
      (sched 0 = true → (filter_handler sched ctx compiled cands hfa).emits = []) ∧
      ((filter_handler sched ctx compiled cands hfa).cancelled = true →
        (filter_handler sched ctx compiled cands hfa).emits = [])) ∧
    (∀ sched ctx cands q pm fz,
      (sched 0 = true → (fuzzywuzzy_handler sched ctx cands q pm fz).emits = []) ∧
      ((fuzzywuzzy_handler sched ctx cands q pm fz).cancelled = true →
        (fuzzywuzzy_handler sched ctx cands q pm fz).emits = [])) := by
  refine ⟨?_, ?_, ?_, ?_, ?_, ?_, ?_, ?_⟩
  · intro sched ctx x
    refine ⟨fun h => by simp [sleep_handler, h], fun h => ?_⟩
    by_cases hs : sched 0 = true
    · simp [sleep_handler, hs]
    · simp [sleep_handler, hs] at h
  · intro sched ctx compiled maxC buf
    exact ⟨fun h => by simp [search_handler, h],
      search_handler_cancel sched ctx compiled maxC buf⟩
  · intro sched ctx cands
    refine ⟨fun h => by simp [uniq_handler, h], fun h => ?_⟩
    by_cases hs : sched 0 = true
    · simp [uniq_handler, hs]
    · simp [uniq_handler, hs] at h
  · intro sched ctx cands
    refine ⟨fun h => by simp [sort_handler, h], fun h => ?_⟩
    by_cases hs : sched 0 = true
    · simp [sort_handler, hs]
    · simp [sort_handler, hs] at h
  · intro sched ctx ea et dirs wo sd
    exact ⟨fun h => by simp [get_file_completion_handler, h],
      file_handler_cancel sched ctx ea et dirs wo sd⟩
  · intro sched ctx ea pwall
    refine ⟨fun h => by simp [get_users_handler, h], fun h => ?_⟩
    by_cases hs : sched 0 = true
    · simp [get_users_handler, hs]
    · simp [get_users_handler, hs] at h
  · intro sched ctx compiled cands hfa
    refine ⟨fun h => by simp [filter_handler, h], fun h => ?_⟩
    by_cases hs : sched 0 = true
    · simp [filter_handler, hs]
    · cases compiled with
      | error e => simp [filter_handler, hs] at h
      | ok pat => simp [filter_handler, hs] at h
  · intro sched ctx cands q pm fz
    refine ⟨fun h => by simp [fuzzywuzzy_handler, h], fun h => ?_⟩
    by_cases hs : sched 0 = true
    · simp [fuzzywuzzy_handler, hs]
    · cases fz with
      | error e => simp [fuzzywuzzy_handler, hs] at h
      | ok f => simp [fuzzywuzzy_handler, hs] at h

theorem C3_cancelled_never_emits_witness :
    (sleep_handler schedAlways ⟨0, 0⟩ ["x"]).emits = [] ∧
    (search_handler schedAlways ⟨0, 0⟩ (.ok patAbCd) 300 ["ab"]).emits = [] ∧
    (uniq_handler schedAlways ⟨0, 0⟩ ["a"]).emits = [] ∧
    (get_file_completion_handler schedAlways ⟨0, 0⟩ "." "file" ["/tmp/dir"] ""
      exampleScandir).emits = [] :=
  ⟨(C3_cancelled_never_emits.1 schedAlways ⟨0, 0⟩ ["x"]).1 rfl,
   (C3_cancelled_never_emits.2.1 schedAlways ⟨0, 0⟩ (.ok patAbCd) 300 ["ab"]).1 rfl,
   (C3_cancelled_never_emits.2.2.1 schedAlways ⟨0, 0⟩ ["a"]).1 rfl,
   (C3_cancelled_never_emits.2.2.2.2.1 schedAlways ⟨0, 0⟩ "." "file" ["/tmp/dir"] ""
     exampleScandir).1 rfl⟩

/-- Claim C5 fails on the code: `extract_captures` calls `re.match`, which
anchors the pattern at position 0, so `(ab)(cd)` does not match
`"xxabcdyy"` at all and the result is `[]`, not `[[2,3],[4,5]]`. -/
theorem C5_counterexample :
    ¬ extract_captures patAbCd "xxabcdyy" = [[2, 3], [4, 5]] := by decide

/-- Claim C5 amended: `extract_captures` returns the UTF-8 byte-offset,
end-inclusive spans of the non-empty participating capture groups of the
match of the pattern anchored at the start of the string (Python `re.match`
semantics, not search-anywhere); it returns `[]` when the anchored match
fails or no group participated.  On `"xxabcdyy"` the anchored match fails,
so the result is `[]`; on `"abcdyy"` the spans are `[[0,1],[2,3]]`;
multi-byte characters count in bytes (`(éx)` against `"éxz"` gives
`[[0,2]]`). -/
theorem C5_extract_captures_anchored :
    (∀ (r : Regex) (s : String), reMatch r s.data = none →
      extract_captures r s = []) ∧
    (∀ (r : Regex) (s : String) (q : Nat × Caps), reMatch r s.data = some q →
      lastIndexOf q.2 = none → extract_captures r s = []) ∧
    extract_captures patAbCd "xxabcdyy" = [] ∧
    extract_captures patAbCd "abcdyy" = [[0, 1], [2, 3]] ∧
    extract_captures (.group 1 (.seq (.lit 'é') (.lit 'x'))) "éxz" = [[0, 2]] := by
  refine ⟨?_, ?_, by decide, by decide, by decide⟩
  · intro r s h
    simp [extract_captures, h]
  · intro r s q h1 h2
    simp [extract_captures, h1, h2]

theorem C5_extract_captures_anchored_witness :
    extract_captures (Regex.lit 'a') "b" = [] :=
  C5_extract_captures_anchored.1 (Regex.lit 'a') "b" (by decide)

/-- Claim C6 fails on the code: `uniq_handler` (like every handler except
`search_handler`) has no `finally` block removing its event — here it exits
by success, emitting one entry, with its token still in the pending set. -/
theorem C6_counterexample :
    (uniq_handler schedNever ⟨0, 0⟩ ["a"]).cancelled = false ∧
    (uniq_handler schedNever ⟨0, 0⟩ ["a"]).emits ≠ [] ∧
    (uniq_handler schedNever ⟨0, 0⟩ ["a"]).removed = false := by decide

/-- Claim C6 amended: only the search handler removes its own token from the
pending set, and only when its entry poll passes (its `try`/`finally` is
entered) — then on any exit: success, failure, or cancellation observed at a
later poll point; the other seven handlers never remove their tokens, and no
handler removes its token when cancelled at the entry poll. -/
theorem C6_token_removal :
    (∀ sched ctx compiled maxC buf,
      (search_handler sched ctx compiled maxC buf).removed = !sched 0) ∧
    (∀ sched ctx x, (sleep_handler sched ctx x).removed = false) ∧
    (∀ sched ctx cands, (uniq_handler sched ctx cands).removed = false) ∧
    (∀ sched ctx cands, (sort_handler sched ctx cands).removed = false) ∧
    (∀ sched ctx ea et dirs wo sd,
      (get_file_completion_handler sched ctx ea et dirs wo sd).removed = false) ∧
    (∀ sched ctx ea pwall, (get_users_handler sched ctx ea pwall).removed = false) ∧
    (∀ sched ctx compiled cands hfa,
      (filter_handler sched ctx compiled cands hfa).removed = false) ∧
    (∀ sched ctx cands q pm fz,
      (fuzzywuzzy_handler sched ctx cands q pm fz).removed = false) := by
  refine ⟨search_handler_removed, ?_, ?_, ?_, file_handler_removed, ?_, ?_, ?_⟩
  · intro sched ctx x
    by_cases hs : sched 0 = true
    · simp [sleep_handler, hs]
    · simp [sleep_handler, hs]
  · intro sched ctx cands
    by_cases hs : sched 0 = true
    · simp [uniq_handler, hs]
    · simp [uniq_handler, hs]
  · intro sched ctx cands
    by_cases hs : sched 0 = true
    · simp [sort_handler, hs]
    · simp [sort_handler, hs]
  · intro sched ctx ea pwall
    by_cases hs : sched 0 = true
    · simp [get_users_handler, hs]
    · simp [get_users_handler, hs]
  · intro sched ctx compiled cands hfa
    by_cases hs : sched 0 = true
    · simp [filter_handler, hs]
    · cases compiled with
      | error e => simp [filter_handler, hs]
      | ok pat => simp [filter_handler, hs]
  · intro sched ctx cands q pm fz
    by_cases hs : sched 0 = true
    · simp [fuzzywuzzy_handler, hs]
    · cases fz with
      | error e => simp [fuzzywuzzy_handler, hs]
      | ok f => simp [fuzzywuzzy_handler, hs]

/-- Claim C7 fails on the code: with `expand_arg = "."` the typed tail is
`"."`, which does start with `.`, so hidden entries are shown and the
`tail + '*'` filter `".*"` additionally excludes every entry not starting
with `.` — the emitted list is `["./", "../", ".hidden"]`, not
`["./", "../", "a.txt", "sub/"]`. -/
theorem C7_counterexample :
    ¬ (get_file_completion_handler schedNever ⟨0, 0⟩ "." "file" ["/tmp/dir"] ""
          exampleScandir).emits =
        [⟨⟨0, 0⟩, .ok ["./", "../", "a.txt", "sub/"], .resolve⟩] := by decide

/-- Claim C7 amended: hidden entries are shown iff the typed tail starts
with `.`; for `expand_arg = "."` the tail is `"."` itself, so `.hidden` is
shown while the filter pattern `".*"` excludes `a.txt` and `sub`, and after
sorting the navigation entries `./` and `../` are prepended, giving
`["./", "../", ".hidden"]`; for a typed tail not starting with `.`
(e.g. `expand_arg = "a"`) the hidden entry is excluded. -/
theorem C7_file_completion_dot :
    (get_file_completion_handler schedNever ⟨0, 0⟩ "." "file" ["/tmp/dir"] ""
        exampleScandir).emits =
      [⟨⟨0, 0⟩, .ok ["./", "../", ".hidden"], .resolve⟩] ∧
    (get_file_completion_handler schedNever ⟨0, 0⟩ "a" "file" ["/tmp/dir"] ""
        exampleScandir).emits =
      [⟨⟨0, 0⟩, .ok ["a.txt"], .resolve⟩] := by decide

/-- Claim C8, code slip: the fuzzy-match handler prefixes its failure
message with `'python_filter: '` — the filter operation's name, identical to
`filter_handler`'s own prefix — so the reject message does not identify the
fuzzy-match operation: both handlers below fail with the same message. -/
theorem C8_fuzzy_reject_prefix :
    (fuzzywuzzy_handler schedNever ⟨0, 0⟩ ["x"] "q" true (.error "boom")).emits =
      [⟨⟨0, 0⟩, .err "python_filter: boom", .reject⟩] ∧
    (filter_handler schedNever ⟨0, 0⟩ (.error "boom") ["x"] false).emits =
      [⟨⟨0, 0⟩, .err "python_filter: boom", .reject⟩] := by decide

end Wilder
